import Mathlib

/-!
Shallow embedding of the Grainfather BLE protocol layer
(`bm-grainfather/src/lib.rs` and `bm/src/grainfather_client.rs`):
the command encoder, the notification decoder, the notification
reassembly buffer, and the client session-open logic, together with
theorems checking the natural-language specification against them.

Text is modelled as `List Char`, bytes as `List Nat` (each element a
byte value).  Fallible operations return `Option`/`Except`; a Rust
process abort (an `unwrap` of `None`/`Err`, or an arithmetic underflow
of `usize`) is modelled by a dedicated failure value, never conflated
with a returned `Err`.
-/

/-! ## Protocol constants (`bm-grainfather/src/lib.rs`, lines 4-6) -/

def SERVICE_ID : Nat := 0x0000cdd000001000800000805f9b34fb

def CHARACTERISTIC_ID_READ : Nat := 0x0003cdd100001000800000805f9b0131

def CHARACTERISTIC_ID_WRITE : Nat := 0x0003cdd200001000800000805f9b0131

/-! ## Rust standard-library parsing primitives, modelled faithfully -/

/-- Value of a decimal digit character. -/
def digitVal (c : Char) : Nat := c.toNat - 48

/-- Value of a string of decimal digit characters (most significant first). -/
def digitsVal (l : List Char) : Nat := l.foldl (fun a c => 10 * a + digitVal c) 0

/-- Model of Rust `str::parse::<uN>()` (`u8`: `bound = 256`, `u32`:
`bound = 2^32`): an optional leading `+` (a `-` is rejected for unsigned
types), then one or more decimal digits, and the value must be below the
type's bound; anything else is a parse error (`none`). Matches
`from_str_radix` in `core`, which rejects empty input, whitespace and
out-of-range values. -/
def parseUnsigned (bound : Nat) (s : List Char) : Option Nat :=
  let t := match s with
    | '+' :: r => r
    | _ => s
  if t ≠ [] ∧ t.all Char.isDigit then
    if digitsVal t < bound then some (digitsVal t) else none
  else none

/-- The value of a parsed Rust `f64`.  A finite value is modelled by the
exact rational value of the accepted decimal numeral (Rust stores the
nearest `f64` to that numeral; we identify the float by the numeral the
parse accepted, which is faithful for the equalities proved here). -/
inductive FVal where
  | num (q : ℚ)
  | inf (neg : Bool)
  | nan
deriving DecidableEq

/-- ASCII lower-casing, as used by Rust float parsing for `inf`/`nan`. -/
def charLower (c : Char) : Char :=
  if 'A' ≤ c ∧ c ≤ 'Z' then Char.ofNat (c.toNat + 32) else c

/-- ASCII case-insensitive comparison against a lower-case pattern. -/
def eqCI (s pat : List Char) : Bool := s.map charLower == pat

/-- Mantissa grammar of Rust `f64::from_str`:
`Digit+ | Digit+ '.' Digit* | Digit* '.' Digit+`, returned as the
digit-string value together with the number of fraction digits (so the
mantissa denotes `digits / 10 ^ fracLen`). -/
def parseMantissa (s : List Char) : Option (Nat × Nat) :=
  let intPart := s.takeWhile Char.isDigit
  let rest := s.drop intPart.length
  match rest with
  | [] => if intPart = [] then none else some (digitsVal intPart, 0)
  | '.' :: frac =>
    if frac.all Char.isDigit ∧ (intPart ≠ [] ∨ frac ≠ []) then
      some (digitsVal (intPart ++ frac), frac.length)
    else none
  | _ => none

/-- Exponent part of Rust `f64::from_str`: optional sign then `Digit+`. -/
def parseExp (s : List Char) : Option (Bool × Nat) :=
  let (neg, t) : Bool × List Char := match s with
    | '+' :: r => (false, r)
    | '-' :: r => (true, r)
    | _ => (false, s)
  if t ≠ [] ∧ t.all Char.isDigit then some (neg, digitsVal t) else none

/-- Split a numeral at the first `e`/`E` (exponent marker). -/
def splitExp (s : List Char) : List Char × Option (List Char) :=
  let m := s.takeWhile (fun c => !(c == 'e' || c == 'E'))
  match s.drop m.length with
  | [] => (s, none)
  | _ :: rest => (m, some rest)

/-- Model of Rust `str::parse::<f64>()` (`f64::from_str`): optional
sign; then case-insensitively `inf`, `infinity` or `nan`; otherwise a
mantissa with an optional exponent.  Leading or trailing whitespace is a
parse error — the grammar in `core::num::dec2flt` accepts nothing else. -/
def parseF64 (s : List Char) : Option FVal :=
  let (neg, t) : Bool × List Char := match s with
    | '+' :: r => (false, r)
    | '-' :: r => (true, r)
    | _ => (false, s)
  if eqCI t ['i', 'n', 'f'] ∨ eqCI t ['i', 'n', 'f', 'i', 'n', 'i', 't', 'y'] then
    some (.inf neg)
  else if eqCI t ['n', 'a', 'n'] then
    some .nan
  else
    let (m, e?) := splitExp t
    match parseMantissa m, e? with
    | some (d, f), none =>
      some (.num (if neg then -(mkRat d (10 ^ f)) else mkRat d (10 ^ f)))
    | some (d, f), some es =>
      match parseExp es with
      | some (eneg, ev) =>
        let q : ℚ := if eneg then mkRat d (10 ^ (f + ev)) else mkRat (d * 10 ^ ev) (10 ^ f)
        some (.num (if neg then -q else q))
      | none => none
    | none, _ => none

/-- Model of Rust `str::split(",")` on the character list: the list of
comma-separated fields.  `split` on an empty string yields one empty
field, and every separator starts a new (possibly empty) field. -/
def splitComma : List Char → List (List Char)
  | [] => [[]]
  | c :: r =>
    let s := splitComma r
    if c = ',' then [] :: s else (c :: s.headD []) :: s.tail

/-- Model of `std::str::from_utf8`: decodes a byte list into characters
exactly when the bytes are valid UTF-8 (RFC 3629 table: no overlong
forms, no surrogates, no code points above `0x10FFFF`). -/
def isCont (b : Nat) : Bool := 0x80 ≤ b ∧ b < 0xC0

def utf8Decode : List Nat → Option (List Char)
  | [] => some []
  | b :: r =>
    if b < 0x80 then
      (utf8Decode r).map (fun cs => Char.ofNat b :: cs)
    else if 0xC2 ≤ b ∧ b ≤ 0xDF then
      match r with
      | b1 :: r1 =>
        if isCont b1 then
          (utf8Decode r1).map (fun cs => Char.ofNat ((b - 0xC0) * 0x40 + (b1 - 0x80)) :: cs)
        else none
      | [] => none
    else if 0xE0 ≤ b ∧ b ≤ 0xEF then
      match r with
      | b1 :: b2 :: r2 =>
        if ((if b = 0xE0 then 0xA0 else 0x80) ≤ b1 ∧
            b1 ≤ (if b = 0xED then 0x9F else 0xBF)) ∧ isCont b2 then
          (utf8Decode r2).map
            (fun cs => Char.ofNat ((b - 0xE0) * 0x1000 + (b1 - 0x80) * 0x40 + (b2 - 0x80)) :: cs)
        else none
      | _ => none
    else if 0xF0 ≤ b ∧ b ≤ 0xF4 then
      match r with
      | b1 :: b2 :: b3 :: r3 =>
        if ((if b = 0xF0 then 0x90 else 0x80) ≤ b1 ∧
            b1 ≤ (if b = 0xF4 then 0x8F else 0xBF)) ∧ isCont b2 ∧ isCont b3 then
          (utf8Decode r3).map
            (fun cs => Char.ofNat ((b - 0xF0) * 0x40000 + (b1 - 0x80) * 0x1000 +
                                   (b2 - 0x80) * 0x40 + (b3 - 0x80)) :: cs)
        else none
      | _ => none
    else none

/-- Bytes of an ASCII string literal, for concrete wire records. -/
def strToBytes (s : String) : List Nat := s.toList.map Char.toNat

/-! ## Notification data model (`bm-grainfather/src/lib.rs`, lines 10-69) -/

inductive Voltage where
  | V110
  | V230
deriving DecidableEq

/-- Source name `Units` (it collides with a Mathlib root name here). -/
inductive TempUnits where
  | Fahrenheit
  | Celsius
deriving DecidableEq

inductive GrainfatherNotification where
  | Temp (desired current : FVal)
  | DelayedHeatTimer (active : Bool)
      (remaining_minutes remaining_seconds total_start_time : Nat)
  | Status1 (heat_active pump_active auto_mode_active stage_ramp_active
      interaction_mode_active : Bool) (interaction_code stage_number : Nat)
      (delayed_heat_mode_active : Bool)
  | Status2 (heat_power_output_percentage : Nat)
      (timer_paused step_mash_mode recipe_interrupted manual_power_mode
       sparge_water_alert_displayed : Bool)
  | Interaction (interaction_code : Nat)
  | Boil (boil_temperature : FVal)
  | VoltageAndUnits (voltage : Voltage) (units : TempUnits)
  | FirmwareVersion (firmware_version : List Char)
  | Other (tag : Char) (payload : List Char)
deriving DecidableEq

/-- Outcome of `GrainfatherNotification::try_from(&[u8])`.
`invalidUtf8` is the returned `Err(InvalidUtf8)` — the only error the
source can return.  `panicked` models a process abort: every field
access and numeric parse in the source goes through `.unwrap()`, so a
missing field or unparsable text aborts instead of returning an error. -/
inductive DecodeOutcome where
  | ok (n : GrainfatherNotification)
  | invalidUtf8
  | panicked
deriving DecidableEq

/-- Interpret an `Option` computed by a chain of `.unwrap()`ed steps:
`none` anywhere is an abort. -/
def pOut : Option GrainfatherNotification → DecodeOutcome
  | some n => .ok n
  | none => .panicked

/-- The `'X'` arm: `desired(f64), current(f64)`. -/
def decodeX (fields : List (List Char)) : DecodeOutcome :=
  pOut ((fields[0]?).bind fun f0 => (parseF64 f0).bind fun desired =>
    (fields[1]?).bind fun f1 => (parseF64 f1).bind fun current =>
    some (.Temp desired current))

/-- The `'T'` arm: the source parses `active`, `remaining_minutes`,
`total_start_time`, `remaining_seconds`, in that order. -/
def decodeT (fields : List (List Char)) : DecodeOutcome :=
  pOut ((fields[0]?).bind fun f0 => (parseUnsigned 256 f0).bind fun a =>
    (fields[1]?).bind fun f1 => (parseUnsigned (2 ^ 32) f1).bind fun remaining_minutes =>
    (fields[2]?).bind fun f2 => (parseUnsigned (2 ^ 32) f2).bind fun total_start_time =>
    (fields[3]?).bind fun f3 => (parseUnsigned (2 ^ 32) f3).bind fun remaining_seconds =>
    some (.DelayedHeatTimer (a == 1) remaining_minutes remaining_seconds total_start_time))

/-- The `'Y'` arm (Status1). -/
def decodeY (fields : List (List Char)) : DecodeOutcome :=
  pOut ((fields[0]?).bind fun f0 => (parseUnsigned 256 f0).bind fun heat =>
    (fields[1]?).bind fun f1 => (parseUnsigned 256 f1).bind fun pump =>
    (fields[2]?).bind fun f2 => (parseUnsigned 256 f2).bind fun auto =>
    (fields[3]?).bind fun f3 => (parseUnsigned 256 f3).bind fun ramp =>
    (fields[4]?).bind fun f4 => (parseUnsigned 256 f4).bind fun inter =>
    (fields[5]?).bind fun f5 => (parseUnsigned 256 f5).bind fun interaction_code =>
    (fields[6]?).bind fun f6 => (parseUnsigned 256 f6).bind fun stage_number =>
    (fields[7]?).bind fun f7 => (parseUnsigned 256 f7).bind fun delayed =>
    some (.Status1 (heat == 1) (pump == 1) (auto == 1) (ramp == 1) (inter == 1)
      interaction_code stage_number (delayed == 1)))

/-- The `'W'` arm (Status2). -/
def decodeW (fields : List (List Char)) : DecodeOutcome :=
  pOut ((fields[0]?).bind fun f0 =>
    (parseUnsigned 256 f0).bind fun heat_power_output_percentage =>
    (fields[1]?).bind fun f1 => (parseUnsigned 256 f1).bind fun paused =>
    (fields[2]?).bind fun f2 => (parseUnsigned 256 f2).bind fun step =>
    (fields[3]?).bind fun f3 => (parseUnsigned 256 f3).bind fun interrupted =>
    (fields[4]?).bind fun f4 => (parseUnsigned 256 f4).bind fun manual =>
    (fields[5]?).bind fun f5 => (parseUnsigned 256 f5).bind fun sparge =>
    some (.Status2 heat_power_output_percentage (paused == 1) (step == 1)
      (interrupted == 1) (manual == 1) (sparge == 1)))

/-- The `'I'` arm. -/
def decodeI (fields : List (List Char)) : DecodeOutcome :=
  pOut ((fields[0]?).bind fun f0 => (parseUnsigned 256 f0).bind fun interaction_code =>
    some (.Interaction interaction_code))

/-- The `'C'` arm. -/
def decodeC (fields : List (List Char)) : DecodeOutcome :=
  pOut ((fields[0]?).bind fun f0 => (parseF64 f0).bind fun boil_temperature =>
    some (.Boil boil_temperature))

/-- The `'F'` arm: only the first comma-separated field is taken
(`ndata_fields.next()`), not the whole remaining text. -/
def decodeF (fields : List (List Char)) : DecodeOutcome :=
  pOut ((fields[0]?).bind fun f0 =>
    some (.FirmwareVersion f0))

/-- The `'V'` arm. -/
def decodeV (fields : List (List Char)) : DecodeOutcome :=
  pOut ((fields[0]?).bind fun f0 => (parseUnsigned 256 f0).bind fun v =>
    (fields[1]?).bind fun f1 => (parseUnsigned 256 f1).bind fun u =>
    some (.VoltageAndUnits (if v == 1 then .V110 else .V230)
      (if u == 1 then .Celsius else .Fahrenheit)))

/-- Model of the body of `GrainfatherNotification::try_from` after the
UTF-8 step (`bm-grainfather/src/lib.rs`, lines 81-186): the first
character selects the variant; the remaining text is split on `,` and
the fields are parsed positionally, each through `.unwrap()`.
An empty input aborts (`ndata_chars.next().unwrap()`).  `u8` fields use
bound 256, `u32` fields bound `2^32`; boolean fields are `u8` parses
compared against 1. -/
def decodeText : List Char → DecodeOutcome
  | [] => .panicked
  | t :: rest =>
    let fields := splitComma rest
    if t = 'X' then decodeX fields
    else if t = 'T' then decodeT fields
    else if t = 'Y' then decodeY fields
    else if t = 'W' then decodeW fields
    else if t = 'I' then decodeI fields
    else if t = 'C' then decodeC fields
    else if t = 'F' then decodeF fields
    else if t = 'V' then decodeV fields
    else .ok (.Other t rest)

/-- Model of `GrainfatherNotification::try_from(&[u8])`
(`bm-grainfather/src/lib.rs`, lines 79-187): `std::str::from_utf8`
first (its `Err` becomes the returned `InvalidUtf8`), then the tag
dispatch above. -/
def tryFromBytes (message : List Nat) : DecodeOutcome :=
  match utf8Decode message with
  | none => .invalidUtf8
  | some text => decodeText text

/-! ## Command data model and encoder (`bm-grainfather/src/lib.rs`, lines 190-402) -/

/-- `Delay` (`lib.rs`, lines 190-193): `Minutes(u32)` or
`MinutesSeconds(u32, u8)`. Machine integers are modelled as `Nat`;
their ranges appear as hypotheses where they matter. -/
inductive Delay where
  | Minutes (m : Nat)
  | MinutesSeconds (m : Nat) (s : Nat)

/-- `GrainfatherCommand` (`lib.rs`, lines 195-234).  The two `f64`
payloads (`SetTargetTemperature`, `SetLocalBoilTemperature`) are
represented by the character list Rust's `Display` produces for the
float (`temp.to_string()` in the source): the shortest decimal string
that round-trips, never in exponent notation — e.g. the exactly
representable value `1e20` renders as `1` followed by twenty zeros. -/
inductive GrainfatherCommand where
  | Reset
  | GetFirmwareVersion
  | GetVoltageAndUnits
  | GetBoilTemperature
  | ToggleHeatActive
  | SetHeatActive (active : Bool)
  | TogglePumpActive
  | SetPumpActive (active : Bool)
  | EnableDelayedHeatTimer (minutes : Nat) (seconds : Nat)
  | CancelActiveTimer
  | UpdateActiveTimer (delay : Delay)
  | PauseOrResumeActiveTimer
  | IncrementTargetTemperature
  | DecrementTargetTemperature
  | SetTargetTemperature (tempRepr : List Char)
  | SetLocalBoilTemperature (tempRepr : List Char)
  | DismissBoilAdditionAlert
  | CancelOrFinishSession
  | PressSet
  | DisableSpargeWaterAlert
  | ResetRecipeInterrupted
  | SetSpargeCounterActive (active : Bool)
  | SetBoilControlActive (active : Bool)
  | SetManualPowerControlActive (active : Bool)
  | SetSpargeAlertModeActive (active : Bool)

/-- Decimal rendering of a natural number, digit recursion with explicit
fuel (any fuel above `n` suffices, since `n / 10 < n`). -/
def decReprAux : Nat → Nat → List Char
  | 0, _ => []
  | fuel + 1, n =>
    if n < 10 then [Char.ofNat (48 + n)]
    else decReprAux fuel (n / 10) ++ [Char.ofNat (48 + n % 10)]

/-- Decimal rendering of a natural number, as Rust's integer
`Display`/`to_string` produces it (no sign, no padding). -/
def decRepr (n : Nat) : List Char := decReprAux (n + 1) n

/-- The `'1'`/`'0'` rendering of a boolean command argument. -/
def bitChar (b : Bool) : Char := if b then '1' else '0'

/-- The serialized content `GrainfatherCommand::to_vec` builds before
padding (`lib.rs`, lines 240-394), variant by variant in source order. -/
def contentOf : GrainfatherCommand → List Char
  | .Reset => ['Z']
  | .GetFirmwareVersion => ['X']
  | .GetVoltageAndUnits => ['g']
  | .GetBoilTemperature => ['M']
  | .ToggleHeatActive => ['H']
  | .SetHeatActive a => ['K', bitChar a]
  | .TogglePumpActive => ['P']
  | .SetPumpActive a => ['L', bitChar a]
  | .EnableDelayedHeatTimer m s => 'B' :: (decRepr m ++ ',' :: decRepr s)
  | .CancelActiveTimer => ['C']
  | .UpdateActiveTimer (.MinutesSeconds m s) => 'W' :: (decRepr m ++ ',' :: decRepr s)
  | .UpdateActiveTimer (.Minutes m) => 'S' :: decRepr m
  | .PauseOrResumeActiveTimer => ['G']
  | .IncrementTargetTemperature => ['U']
  | .DecrementTargetTemperature => ['D']
  | .SetTargetTemperature r => '$' :: r
  | .SetLocalBoilTemperature r => 'E' :: r
  | .DismissBoilAdditionAlert => ['A']
  | .CancelOrFinishSession => ['F']
  | .PressSet => ['T']
  | .DisableSpargeWaterAlert => ['V']
  | .ResetRecipeInterrupted => ['!']
  | .SetSpargeCounterActive a => ['d', bitChar a]
  | .SetBoilControlActive a => ['e', bitChar a]
  | .SetManualPowerControlActive a => ['f', bitChar a]
  | .SetSpargeAlertModeActive a => ['h', bitChar a]

/-- Model of `GrainfatherCommand::to_vec` (`lib.rs`, lines 237-401):
build the content, then pad with spaces using
`for _ in 0..(19 - output.len())`.  When the content exceeds 19 bytes
the `usize` subtraction `19 - output.len()` underflows, which aborts
the process (an overflow panic in debug builds; in release builds the
wrapped count makes the loop exhaust memory) — modelled by `none`; no
19-byte frame is ever produced in that case. -/
def toVec (c : GrainfatherCommand) : Option (List Char) :=
  let out := contentOf c
  if out.length ≤ 19 then some (out ++ List.replicate (19 - out.length) ' ')
  else none

/-- Argument-range side conditions from the Rust machine-integer types
(`u32` minutes, `u8` seconds); `True` for variants without integer
arguments. -/
def intArgsInRange : GrainfatherCommand → Prop
  | .EnableDelayedHeatTimer m s => m < 2 ^ 32 ∧ s < 2 ^ 8
  | .UpdateActiveTimer (.MinutesSeconds m s) => m < 2 ^ 32 ∧ s < 2 ^ 8
  | .UpdateActiveTimer (.Minutes m) => m < 2 ^ 32
  | _ => True

/-- The two variants carrying an `f64` payload. -/
def isFloatVariant : GrainfatherCommand → Bool
  | .SetTargetTemperature _ => true
  | .SetLocalBoilTemperature _ => true
  | _ => false

/-! ## Reassembly buffer (`bm/src/grainfather_client.rs`, lines 113-132)

The closure registered by `GrainfatherClient::subscribe` owns a byte
buffer; each delivered chunk is appended, then
`notification_count = len / 17` whole records are drained off the front
and split with `chunks_exact(17)`. -/

def NOTIFICATION_LEN : Nat := 17

/-- `chunks_exact(17)` on a byte list: successive 17-byte chunks, any
short remainder discarded (the caller only ever passes a multiple of
17 bytes). -/
def chunksExact (l : List Nat) : List (List Nat) :=
  if _h : NOTIFICATION_LEN ≤ l.length then
    l.take NOTIFICATION_LEN :: chunksExact (l.drop NOTIFICATION_LEN)
  else []
termination_by l.length
decreasing_by simp only [List.length_drop, NOTIFICATION_LEN] at *; omega

/-- One invocation of the notification closure: append the chunk to the
retained buffer, drain `(len / 17) * 17` bytes as 17-byte records, keep
the remainder.  Returns (records emitted in order, retained tail). -/
def pushChunk (buf chunk : List Nat) : List (List Nat) × List Nat :=
  let b := buf ++ chunk
  let count := b.length / NOTIFICATION_LEN
  let m := count * NOTIFICATION_LEN
  (chunksExact (b.take m), b.drop m)

/-- Feeding a sequence of chunks through the closure, accumulating the
emitted records in arrival order. -/
def processChunks (buf : List Nat) : List (List Nat) → List (List Nat) × List Nat
  | [] => ([], buf)
  | c :: cs =>
    let out := pushChunk buf c
    let rest := processChunks out.2 cs
    (out.1 ++ rest.1, rest.2)

/-! ## Client session open (`bm/src/grainfather_client.rs`, lines 74-99) -/

/-- Stand-in for the external `btleplug::Error` payload. -/
abbrev BtleError : Type := Nat

/-- `GrainfatherClientError` (`grainfather_client.rs`, lines 10-16). -/
inductive GrainfatherClientError where
  | Connect (e : BtleError)
  | DiscoverCharacteristics (e : BtleError)
  | WriteCharacteristic
  | ReadCharacteristic
deriving DecidableEq

/-- A discovered BLE characteristic: its 128-bit identifier as the
16-byte little-endian array `btleplug`'s `UUID::B128` carries, plus a
handle standing in for the remaining `btleplug` fields, so two
characteristics with the same identifier stay distinguishable. -/
structure Characteristic where
  uuid : List Nat
  handle : Nat
deriving DecidableEq

/-- `u128::to_le_bytes`: the 16 bytes of the identifier, least
significant first. -/
def u128ToLeBytes (n : Nat) : List Nat :=
  (List.range 16).map (fun i => n / 2 ^ (8 * i) % 256)

/-- The transport capability used by `GrainfatherClient::try_from`: the
relevant observable behavior of a `GrainfatherClientImpl` collaborator
(`is_connected`, `connect`, `discover_characteristics`). -/
structure ClientImplModel where
  is_connected : Bool
  connect : Except BtleError Unit
  discover_characteristics : Except BtleError (List Characteristic)

/-- The session state a successful `GrainfatherClient::try_from`
constructs: the resolved read and write characteristics. -/
structure GrainfatherClient where
  read : Characteristic
  write : Characteristic
deriving DecidableEq

/-- Model of `GrainfatherClient::try_from`
(`grainfather_client.rs`, lines 81-99): connect only if not already
connected (propagating the error as `Connect`), discover
characteristics (propagating as `DiscoverCharacteristics`), then
resolve the read characteristic by `CHARACTERISTIC_ID_READ` and the
write characteristic by `CHARACTERISTIC_ID_WRITE` via `find`, failing
with `ReadCharacteristic` / `WriteCharacteristic` respectively. -/
def GrainfatherClient.tryFrom (gf : ClientImplModel) :
    Except GrainfatherClientError GrainfatherClient :=
  let step1 : Except GrainfatherClientError Unit :=
    if !gf.is_connected then
      match gf.connect with
      | .error e => .error (.Connect e)
      | .ok _ => .ok ()
    else .ok ()
  match step1 with
  | .error e => .error e
  | .ok _ =>
    match gf.discover_characteristics with
    | .error e => .error (.DiscoverCharacteristics e)
    | .ok cs =>
      match cs.find? (fun c => c.uuid == u128ToLeBytes CHARACTERISTIC_ID_READ) with
      | none => .error .ReadCharacteristic
      | some rc =>
        match cs.find? (fun c => c.uuid == u128ToLeBytes CHARACTERISTIC_ID_WRITE) with
        | none => .error .WriteCharacteristic
        | some wc => .ok ⟨rc, wc⟩

/-! ## Helper lemmas: reassembly buffer -/

theorem chunksExact_nil {l : List Nat} (h : l.length < 17) : chunksExact l = [] := by
  unfold chunksExact
  rw [dif_neg]
  simp only [NOTIFICATION_LEN]
  omega

theorem chunksExact_cons {l : List Nat} (h : 17 ≤ l.length) :
    chunksExact l = l.take 17 :: chunksExact (l.drop 17) := by
  conv_lhs => unfold chunksExact
  rw [dif_pos (show NOTIFICATION_LEN ≤ l.length from h)]
  rfl

theorem chunksExact_flatten : ∀ (n : Nat) (l : List Nat), l.length = 17 * n →
    (chunksExact l).flatten = l := by
  intro n
  induction n with
  | zero =>
    intro l hl
    have hnil : l = [] := List.eq_nil_of_length_eq_zero (by omega)
    subst hnil
    rw [chunksExact_nil (by simp)]
    simp
  | succ k ih =>
    intro l hl
    rw [chunksExact_cons (by omega), List.flatten_cons, ih (l.drop 17) (by simp; omega)]
    exact List.take_append_drop 17 l

theorem chunksExact_append : ∀ (n : Nat) (x y : List Nat), x.length = 17 * n →
    chunksExact (x ++ y) = chunksExact x ++ chunksExact y := by
  intro n
  induction n with
  | zero =>
    intro x y hx
    have hnil : x = [] := List.eq_nil_of_length_eq_zero (by omega)
    subst hnil
    rw [List.nil_append, chunksExact_nil (l := []) (by simp), List.nil_append]
  | succ k ih =>
    intro x y hx
    have h17 : 17 ≤ x.length := by omega
    have hxy : 17 ≤ (x ++ y).length := by simp; omega
    rw [chunksExact_cons hxy, chunksExact_cons h17,
        List.take_append_of_le_length h17, List.drop_append_of_le_length h17,
        ih (x.drop 17) y (by simp; omega)]
    simp

theorem chunksExact_mem_length : ∀ (fuel : Nat) (l : List Nat), l.length ≤ fuel →
    ∀ r ∈ chunksExact l, r.length = 17 := by
  intro fuel
  induction fuel with
  | zero =>
    intro l hl r hr
    have hnil : l = [] := List.eq_nil_of_length_eq_zero (by omega)
    subst hnil
    rw [chunksExact_nil (by simp)] at hr
    simp at hr
  | succ k ih =>
    intro l hl r hr
    by_cases h : 17 ≤ l.length
    · rw [chunksExact_cons h] at hr
      rcases List.mem_cons.mp hr with h1 | h2
      · subst h1
        simp [List.length_take]
        omega
      · exact ih (l.drop 17) (by simp; omega) r h2
    · rw [chunksExact_nil (by omega)] at hr
      simp at hr

/-! pushChunk facts -/

theorem pushChunk_tail_length (s c : List Nat) : (pushChunk s c).2.length < 17 := by
  simp only [pushChunk, NOTIFICATION_LEN, List.length_drop]
  omega

theorem pushChunk_empty_chunk (s : List Nat) (h : s.length < 17) : pushChunk s [] = ([], s) := by
  simp only [pushChunk, NOTIFICATION_LEN, List.append_nil]
  rw [Nat.div_eq_of_lt h]
  simp [chunksExact_nil (show ([] : List Nat).length < 17 by simp)]

theorem pushChunk_records_length (s c : List Nat) :
    ∀ r ∈ (pushChunk s c).1, r.length = 17 := by
  intro r hr
  simp only [pushChunk, NOTIFICATION_LEN] at hr
  exact chunksExact_mem_length _ _ (le_refl _) r hr

theorem pushChunk_conserve (s c : List Nat) :
    (pushChunk s c).1.flatten ++ (pushChunk s c).2 = s ++ c := by
  simp only [pushChunk, NOTIFICATION_LEN]
  set b := s ++ c with hb
  have hm : b.length / 17 * 17 ≤ b.length := Nat.div_mul_le_self _ _
  rw [chunksExact_flatten (b.length / 17) (b.take (b.length / 17 * 17))
      (by rw [List.length_take]; omega)]
  exact List.take_append_drop _ b

theorem pushChunk_append (s c1 c2 : List Nat) :
    pushChunk s (c1 ++ c2) =
      ((pushChunk s c1).1 ++ (pushChunk (pushChunk s c1).2 c2).1,
       (pushChunk (pushChunk s c1).2 c2).2) := by
  simp only [pushChunk, NOTIFICATION_LEN]
  rw [← List.append_assoc]
  set b1 := s ++ c1 with hb1
  set B := b1 ++ c2 with hB
  set n1 := b1.length / 17 with hn1
  have hm1 : n1 * 17 ≤ b1.length := by rw [hn1]; exact Nat.div_mul_le_self _ _
  have hdrop : B.drop (n1 * 17) = b1.drop (n1 * 17) ++ c2 :=
    List.drop_append_of_le_length hm1
  rw [← hdrop]
  have hlenB : B.length = b1.length + c2.length := by simp [hB]
  have hlen2 : (B.drop (n1 * 17)).length = B.length - n1 * 17 := by simp
  -- the second drain's record byte count
  set n2 := (B.drop (n1 * 17)).length / 17 with hn2
  have hn2' : n2 = B.length / 17 - n1 := by
    rw [hn2, hlen2]
    have h1 : b1.length ≤ B.length := by omega
    omega
  have hn1le : n1 ≤ B.length / 17 := by
    rw [hn1]
    exact Nat.div_le_div_right (by omega)
  have hM : B.length / 17 * 17 = n1 * 17 + n2 * 17 := by
    rw [hn2']
    have := Nat.sub_mul (B.length / 17) n1 17
    omega
  have hlen1 : (B.take (n1 * 17)).length = 17 * n1 := by
    rw [List.length_take, min_eq_left (show n1 * 17 ≤ B.length by omega)]
    exact Nat.mul_comm n1 17
  rw [Prod.mk.injEq]
  constructor
  · -- records agree
    rw [hM, List.take_add,
        chunksExact_append n1 (B.take (n1 * 17)) ((B.drop (n1 * 17)).take (n2 * 17)) hlen1]
    congr 2
    rw [hB]
    exact List.take_append_of_le_length hm1
  · -- tails agree
    rw [hM, List.drop_drop]

/-! processChunks facts -/

theorem processChunks_eq_pushChunk : ∀ (cs : List (List Nat)) (s : List Nat),
    s.length < 17 → processChunks s cs = pushChunk s cs.flatten := by
  intro cs
  induction cs with
  | nil =>
    intro s hs
    rw [List.flatten_nil, pushChunk_empty_chunk s hs]
    rfl
  | cons c cs ih =>
    intro s hs
    rw [List.flatten_cons, pushChunk_append s c cs.flatten]
    simp only [processChunks]
    rw [ih (pushChunk s c).2 (pushChunk_tail_length s c)]

theorem processChunks_tail_length : ∀ (cs : List (List Nat)) (s : List Nat),
    s.length < 17 → (processChunks s cs).2.length < 17 := by
  intro cs
  induction cs with
  | nil => intro s hs; exact hs
  | cons c cs ih =>
    intro s hs
    simp only [processChunks]
    exact ih (pushChunk s c).2 (pushChunk_tail_length s c)

theorem processChunks_conserve : ∀ (cs : List (List Nat)) (s : List Nat),
    (processChunks s cs).1.flatten ++ (processChunks s cs).2 = s ++ cs.flatten := by
  intro cs
  induction cs with
  | nil => intro s; simp [processChunks]
  | cons c cs ih =>
    intro s
    simp only [processChunks, List.flatten_cons, List.flatten_append]
    rw [List.append_assoc, ih (pushChunk s c).2, ← List.append_assoc,
        pushChunk_conserve s c, List.append_assoc]

theorem processChunks_records_length : ∀ (cs : List (List Nat)) (s : List Nat),
    ∀ r ∈ (processChunks s cs).1, r.length = 17 := by
  intro cs
  induction cs with
  | nil => intro s r hr; simp [processChunks] at hr
  | cons c cs ih =>
    intro s r hr
    simp only [processChunks] at hr
    rcases List.mem_append.mp hr with h1 | h2
    · exact pushChunk_records_length s c r h1
    · exact ih (pushChunk s c).2 r h2

/-! ## Claim theorems: reassembly buffer -/

/-- Claim C3: for every finite byte stream and every partition of it into
chunks, feeding the chunks in order to the reassembly buffer yields the
identical ordered sequence of 17-byte records (and the identical retained
tail) as feeding the whole stream in one call; every emitted record is
exactly 17 bytes, extracted in arrival order. -/
theorem reassembly_chunking_invariant (chunks : List (List Nat)) :
    processChunks [] chunks = pushChunk [] chunks.flatten ∧
      (processChunks [] chunks).1.all (fun r => r.length == 17) = true := by
  constructor
  · exact processChunks_eq_pushChunk chunks [] (by simp)
  · rw [List.all_eq_true]
    intro r hr
    simpa using processChunks_records_length chunks [] r hr

/-- Claim C4: after every push call in any sequence of pushes, the
reassembly buffer's retained tail is strictly shorter than 17 bytes. -/
theorem reassembly_tail_invariant (chunks : List (List Nat)) (i : Nat) :
    ((processChunks [] (chunks.take i)).2).length < 17 :=
  processChunks_tail_length (chunks.take i) [] (by simp)

/-- Claim C5: no byte is lost or misaligned by reassembly — after any
sequence of chunk deliveries, the emitted records concatenated in
emission order, followed by the retained tail, equal the concatenation
of all delivered chunks in arrival order. -/
theorem reassembly_conservation (chunks : List (List Nat)) :
    (processChunks [] chunks).1.flatten ++ (processChunks [] chunks).2 = chunks.flatten := by
  have h := processChunks_conserve chunks []
  rwa [List.nil_append] at h

/-! ## Helper lemmas: field splitting -/

theorem splitComma_ne_nil (l : List Char) : splitComma l ≠ [] := by
  cases l with
  | nil => simp [splitComma]
  | cons c r =>
    simp only [splitComma]
    split <;> simp

theorem splitComma_headD (l : List Char) :
    (splitComma l).headD [] = l.takeWhile (fun c => !(c == ',')) := by
  induction l with
  | nil => simp [splitComma]
  | cons c r ih =>
    simp only [splitComma]
    by_cases h : c = ','
    · subst h
      rw [if_pos rfl, List.headD_cons]
      simp [List.takeWhile_cons]
    · have hb : (c == ',') = false := by simp [h]
      rw [if_neg h, List.headD_cons, ih]
      simp [List.takeWhile_cons, hb]

theorem splitComma_getElem_zero (l : List Char) :
    (splitComma l)[0]? = some (l.takeWhile (fun c => !(c == ','))) := by
  cases hs : splitComma l with
  | nil => exact absurd hs (splitComma_ne_nil l)
  | cons a s =>
    have h2 := splitComma_headD l
    rw [hs] at h2
    simp only [List.headD_cons] at h2
    simp [h2]

/-! ## Claim theorems: notification decoder -/

/-- Claim C2 (code evaluated at the failing input): on the 17-byte
record `"Xabc,1.0"` padded with spaces, whose first field is non-numeric
where a float is expected, the decoder aborts the process (the
`parse().unwrap()` at `bm-grainfather/src/lib.rs:87`); it does not
return a recoverable `MalformedField` error — no such error variant
exists in the source.  A well-formed record still decodes, showing the
abort is caused by the malformed field alone. -/
theorem decode_malformed_field_aborts :
    tryFromBytes (strToBytes "Xabc,1.0         ") = .panicked ∧
    tryFromBytes (strToBytes "X1.0,2.0,        ") = .ok (.Temp (.num 1) (.num 2)) := by
  constructor <;> decide

/-- Claim C6 counterexample: decoding `"Qabc"` padded to 17 bytes yields
`Other('Q', "abc" ++ thirteen spaces)` — the payload keeps the padding —
not `Other('Q', "abc")` as the claim states. -/
theorem decode_unknown_tag_cex :
    tryFromBytes (strToBytes "Qabc             ") =
      .ok (.Other 'Q' "abc             ".toList) ∧
    ("abc             ".toList ≠ "abc".toList) := by
  constructor <;> decide

/-- Claim C6 (amended): for every valid-text record whose leading
character is not one of the recognized tags, decoding succeeds and
yields `Other(tag, rest)` where `rest` is the entire remaining text of
the record, trailing padding included. -/
theorem decode_unknown_tag (bs : List Nat) (t : Char) (rest : List Char)
    (h : utf8Decode bs = some (t :: rest))
    (h1 : t ≠ 'X') (h2 : t ≠ 'T') (h3 : t ≠ 'Y') (h4 : t ≠ 'W')
    (h5 : t ≠ 'I') (h6 : t ≠ 'C') (h7 : t ≠ 'F') (h8 : t ≠ 'V') :
    tryFromBytes bs = .ok (.Other t rest) := by
  simp only [tryFromBytes, h]
  simp only [decodeText]
  rw [if_neg h1, if_neg h2, if_neg h3, if_neg h4, if_neg h5, if_neg h6, if_neg h7, if_neg h8]

/-- Witness for `decode_unknown_tag` at the concrete record
`"Qabc" ++ padding`. -/
theorem decode_unknown_tag_witness :
    utf8Decode (strToBytes "Qabc             ") =
      some ('Q' :: "abc             ".toList) ∧
    tryFromBytes (strToBytes "Qabc             ") =
      .ok (.Other 'Q' "abc             ".toList) :=
  ⟨by decide,
   decode_unknown_tag (strToBytes "Qabc             ") 'Q' "abc             ".toList
     (by decide) (by decide) (by decide) (by decide) (by decide) (by decide) (by decide)
     (by decide) (by decide)⟩

/-- Claim C7 counterexample: decoding the 17-byte record
`"X65.0,64.3"` followed by space padding does not yield
`Temp{desired: 65.0, current: 64.3}` — it aborts, because the second
field is `"64.3"` followed by the padding spaces and Rust float parsing
rejects trailing whitespace, so the `unwrap` at
`bm-grainfather/src/lib.rs:88` aborts. -/
theorem decode_temp_padding_cex :
    tryFromBytes (strToBytes "X65.0,64.3       ") = .panicked ∧
    DecodeOutcome.panicked ≠ .ok (.Temp (.num 65) (.num (mkRat 643 10))) := by
  constructor <;> decide

/-- Claim C7 (amended): when the numeric content is terminated by a
comma before the padding — record `"X65.0,64.3,"` plus spaces — the
fields parse cleanly and decoding yields
`Temp{desired: 65.0, current: 64.3}`, in that positional order. -/
theorem decode_temp_comma_terminated :
    tryFromBytes (strToBytes "X65.0,64.3,      ") =
      .ok (.Temp (.num 65) (.num (mkRat 643 10))) := by
  decide

/-- Claim C8 counterexample: decoding `"V1,1"` padded to 17 bytes does
not yield `VoltageAndUnits{V110, Celsius}` — it aborts, because the
second field is `"1"` plus the padding spaces, which fails the `u8`
parse, so the `unwrap` at `bm-grainfather/src/lib.rs:169` aborts. -/
theorem decode_voltage_units_cex :
    tryFromBytes (strToBytes "V1,1             ") = .panicked ∧
    tryFromBytes (strToBytes "V1,1             ") ≠
      .ok (.VoltageAndUnits .V110 .Celsius) := by
  constructor <;> decide

/-- Claim C8 (amended): for every `V` record whose first two fields
parse as `u8`, the first field maps to `V110` exactly when it equals 1
(`V230` otherwise) and the second to `Celsius` exactly when it equals 1
(`Fahrenheit` otherwise); concretely, with the fields comma-terminated
ahead of the padding, `"V1,1,"` decodes to `{V110, Celsius}` and
`"V0,0,"` to `{V230, Fahrenheit}`. -/
theorem decode_voltage_units :
    (∀ (bs : List Nat) (rest : List Char) (f0 f1 : List Char) (v u : Nat),
        utf8Decode bs = some ('V' :: rest) →
        (splitComma rest)[0]? = some f0 →
        (splitComma rest)[1]? = some f1 →
        parseUnsigned 256 f0 = some v →
        parseUnsigned 256 f1 = some u →
        tryFromBytes bs = .ok (.VoltageAndUnits (if v == 1 then .V110 else .V230)
          (if u == 1 then .Celsius else .Fahrenheit))) ∧
    tryFromBytes (strToBytes "V1,1,            ") =
      .ok (.VoltageAndUnits .V110 .Celsius) ∧
    tryFromBytes (strToBytes "V0,0,            ") =
      .ok (.VoltageAndUnits .V230 .Fahrenheit) := by
  refine ⟨?_, by decide, by decide⟩
  intro bs rest f0 f1 v u h h0 h1 hp0 hp1
  simp only [tryFromBytes, h]
  simp only [decodeText]
  rw [if_neg (by decide), if_neg (by decide), if_neg (by decide), if_neg (by decide),
      if_neg (by decide), if_neg (by decide), if_neg (by decide), if_pos (by trivial)]
  simp only [decodeV, h0, h1, hp0, hp1, Option.some_bind, pOut]

/-- Witness for the universal part of `decode_voltage_units` at the
concrete record `"V1,1," ++ padding`. -/
theorem decode_voltage_units_witness :
    parseUnsigned 256 ['1'] = some 1 ∧
    tryFromBytes (strToBytes "V1,1,            ") =
      .ok (.VoltageAndUnits .V110 .Celsius) :=
  ⟨by decide,
   decode_voltage_units.1 (strToBytes "V1,1,            ") "1,1,            ".toList
     ['1'] ['1'] 1 1 (by decide) (by decide) (by decide) (by decide) (by decide)⟩

/-- Claim C9 counterexample: decoding `"F1,2"` padded to 17 bytes yields
`FirmwareVersion{"1"}` — only the text before the first comma — not the
entire rest `"1,2" ++ padding` the claim promises. -/
theorem decode_firmware_comma_cex :
    tryFromBytes (strToBytes "F1,2             ") = .ok (.FirmwareVersion ['1']) ∧
    tryFromBytes (strToBytes "F1,2             ") ≠
      .ok (.FirmwareVersion "1,2             ".toList) := by
  constructor <;> decide

/-- Claim C9 (amended): for every `F` record, decoding yields
`FirmwareVersion` carrying the text before the first comma of the rest
of the record (hence the entire rest only when the rest contains no
comma); a version string containing a comma is truncated at the comma. -/
theorem decode_firmware_first_field (bs : List Nat) (rest : List Char)
    (h : utf8Decode bs = some ('F' :: rest)) :
    tryFromBytes bs = .ok (.FirmwareVersion (rest.takeWhile (fun c => !(c == ',')))) := by
  simp only [tryFromBytes, h]
  simp only [decodeText]
  rw [if_neg (by decide), if_neg (by decide), if_neg (by decide), if_neg (by decide),
      if_neg (by decide), if_neg (by decide), if_pos (by trivial)]
  simp only [decodeF, splitComma_getElem_zero rest, Option.some_bind, pOut]

/-- Witness for `decode_firmware_first_field` at the concrete record
`"F1,2" ++ padding`. -/
theorem decode_firmware_first_field_witness :
    utf8Decode (strToBytes "F1,2             ") =
      some ('F' :: "1,2             ".toList) ∧
    tryFromBytes (strToBytes "F1,2             ") = .ok (.FirmwareVersion ['1']) :=
  ⟨by decide,
   decode_firmware_first_field (strToBytes "F1,2             ") "1,2             ".toList
     (by decide)⟩

/-! ## Helper lemmas: command encoder -/

theorem decReprAux_length : ∀ (fuel k n : Nat), n < fuel → n < 10 ^ (k + 1) →
    (decReprAux fuel n).length ≤ k + 1 := by
  intro fuel
  induction fuel with
  | zero => intro k n hn _; omega
  | succ fu ih =>
    intro k n hn hk
    simp only [decReprAux]
    by_cases h10 : n < 10
    · rw [if_pos h10]
      simp
    · rw [if_neg h10]
      cases k with
      | zero =>
        exfalso
        norm_num at hk
        omega
      | succ k' =>
        rw [List.length_append, List.length_singleton]
        have hdn : n / 10 < n := Nat.div_lt_self (by omega) (by omega)
        have hfu : n / 10 < fu := by omega
        have hk' : n / 10 < 10 ^ (k' + 1) := by
          rw [Nat.div_lt_iff_lt_mul (by norm_num)]
          calc n < 10 ^ (k' + 2) := hk
          _ = 10 ^ (k' + 1) * 10 := by ring
        have := ih k' (n / 10) hfu hk'
        omega

theorem decRepr_length (k n : Nat) (h : n < 10 ^ (k + 1)) : (decRepr n).length ≤ k + 1 :=
  decReprAux_length (n + 1) k n (by omega) h

theorem contentOf_length_le (c : GrainfatherCommand) (hr : intArgsInRange c)
    (hf : isFloatVariant c = false) : (contentOf c).length ≤ 19 := by
  cases c with
  | EnableDelayedHeatTimer m s =>
    obtain ⟨hm, hs⟩ := hr
    have h1 : (decRepr m).length ≤ 10 := decRepr_length 9 m (by norm_num at hm ⊢; omega)
    have h2 : (decRepr s).length ≤ 3 := decRepr_length 2 s (by norm_num at hs ⊢; omega)
    simp only [contentOf, List.length_cons, List.length_append]
    omega
  | UpdateActiveTimer d =>
    cases d with
    | Minutes m =>
      have hm : m < 2 ^ 32 := hr
      have h1 : (decRepr m).length ≤ 10 := decRepr_length 9 m (by norm_num at hm ⊢; omega)
      simp only [contentOf, List.length_cons]
      omega
    | MinutesSeconds m s =>
      obtain ⟨hm, hs⟩ := hr
      have h1 : (decRepr m).length ≤ 10 := decRepr_length 9 m (by norm_num at hm ⊢; omega)
      have h2 : (decRepr s).length ≤ 3 := decRepr_length 2 s (by norm_num at hs ⊢; omega)
      simp only [contentOf, List.length_cons, List.length_append]
      omega
  | SetTargetTemperature r => exact Bool.noConfusion hf
  | SetLocalBoilTemperature r => exact Bool.noConfusion hf
  | SetHeatActive a => simp [contentOf]
  | SetPumpActive a => simp [contentOf]
  | SetSpargeCounterActive a => simp [contentOf]
  | SetBoilControlActive a => simp [contentOf]
  | SetManualPowerControlActive a => simp [contentOf]
  | SetSpargeAlertModeActive a => simp [contentOf]
  | Reset => simp [contentOf]
  | GetFirmwareVersion => simp [contentOf]
  | GetVoltageAndUnits => simp [contentOf]
  | GetBoilTemperature => simp [contentOf]
  | ToggleHeatActive => simp [contentOf]
  | TogglePumpActive => simp [contentOf]
  | CancelActiveTimer => simp [contentOf]
  | PauseOrResumeActiveTimer => simp [contentOf]
  | IncrementTargetTemperature => simp [contentOf]
  | DecrementTargetTemperature => simp [contentOf]
  | DismissBoilAdditionAlert => simp [contentOf]
  | CancelOrFinishSession => simp [contentOf]
  | PressSet => simp [contentOf]
  | DisableSpargeWaterAlert => simp [contentOf]
  | ResetRecipeInterrupted => simp [contentOf]

/-! ## Claim theorems: command encoder -/

/-- Claim C1 counterexample: the exactly representable `f64` value
`1e20` renders through Rust `Display` as `1` followed by twenty zeros
(21 characters, shortest round-trip decimal, no exponent notation), so
the pre-padding content of `SetTargetTemperature(1e20)` is 22 bytes,
which exceeds the 19-byte frame: `19 - output.len()` underflows and no
19-byte frame is produced — the encoding is not `19` bytes for every
`f64` argument. -/
theorem to_vec_float_overflow_cex :
    toVec (.SetTargetTemperature "100000000000000000000".toList) = none ∧
    19 < (contentOf (.SetTargetTemperature "100000000000000000000".toList)).length := by
  constructor <;> decide

/-- Claim C1 (amended): whenever the serialized content fits in 19
bytes, `to_vec` returns a frame of exactly 19 bytes consisting of the
content followed by space padding; and for every variant that carries no
`f64` payload — including `EnableDelayedHeatTimer` and
`UpdateActiveTimer` over their full `u32`/`u8` argument ranges — the
content always fits.  (The two `f64` variants fit exactly when the
float's decimal rendering has at most 18 characters.) -/
theorem to_vec_frame :
    (∀ c : GrainfatherCommand, (contentOf c).length ≤ 19 →
        toVec c = some (contentOf c ++ List.replicate (19 - (contentOf c).length) ' ') ∧
        (contentOf c ++ List.replicate (19 - (contentOf c).length) ' ').length = 19 ∧
        ∀ x ∈ (contentOf c ++ List.replicate (19 - (contentOf c).length) ' ').drop
            (contentOf c).length, x = ' ') ∧
    (∀ c : GrainfatherCommand, intArgsInRange c → isFloatVariant c = false →
        (contentOf c).length ≤ 19) := by
  constructor
  · intro c h
    refine ⟨by simp only [toVec]; rw [if_pos h], ?_, ?_⟩
    · simp only [List.length_append, List.length_replicate]
      omega
    · intro x hx
      rw [List.drop_left] at hx
      exact List.eq_of_mem_replicate hx
  · exact contentOf_length_le

/-- Witness for `to_vec_frame`: the command `EnableDelayedHeatTimer
{minutes: 2, seconds: 30}` is in range, carries no float, its content
`"B2,30"` fits, and it encodes to the 19-byte frame `"B2,30"` plus 14
spaces. -/
theorem to_vec_frame_witness :
    (contentOf (.EnableDelayedHeatTimer 2 30)).length ≤ 19 ∧
    intArgsInRange (.EnableDelayedHeatTimer 2 30) ∧
    isFloatVariant (.EnableDelayedHeatTimer 2 30) = false ∧
    toVec (.EnableDelayedHeatTimer 2 30) = some ("B2,30".toList ++ List.replicate 14 ' ') ∧
    (contentOf (.EnableDelayedHeatTimer 2 30)).length ≤ 19 :=
  ⟨by decide, by constructor <;> decide, by decide,
   (to_vec_frame.1 (.EnableDelayedHeatTimer 2 30) (by decide)).1,
   to_vec_frame.2 (.EnableDelayedHeatTimer 2 30) (by constructor <;> decide) (by decide)⟩

/-! ## Claim theorems: client session open -/

/-- Claim C10: `GrainfatherClient::try_from` requests a transport
connection only when not already connected (its result does not depend
on `connect` when already connected, and a connect failure is propagated
as `Connect`); then discovers characteristics (propagating a failure as
`DiscoverCharacteristics`); then resolves the read characteristic by
`CHARACTERISTIC_ID_READ` (`0003cdd1-0000-1000-8000-00805f9b0131`) and
the write characteristic by `CHARACTERISTIC_ID_WRITE`
(`0003cdd2-0000-1000-8000-00805f9b0131`), failing with
`ReadCharacteristic` / `WriteCharacteristic` — an error identifying
which one is absent — when resolution fails; on success the constructed
session holds both resolved characteristics. -/
theorem client_try_from_behavior :
    (∀ (t : ClientImplModel) (e : BtleError),
        t.is_connected = false → t.connect = .error e →
        GrainfatherClient.tryFrom t = .error (.Connect e)) ∧
    (∀ (t : ClientImplModel) (c₁ c₂ : Except BtleError Unit),
        t.is_connected = true →
        GrainfatherClient.tryFrom { t with connect := c₁ } =
          GrainfatherClient.tryFrom { t with connect := c₂ }) ∧
    (∀ (t : ClientImplModel) (e : BtleError),
        (t.is_connected = true ∨ t.connect = .ok ()) →
        t.discover_characteristics = .error e →
        GrainfatherClient.tryFrom t = .error (.DiscoverCharacteristics e)) ∧
    (∀ (t : ClientImplModel) (cs : List Characteristic),
        (t.is_connected = true ∨ t.connect = .ok ()) →
        t.discover_characteristics = .ok cs →
        cs.find? (fun c => c.uuid == u128ToLeBytes CHARACTERISTIC_ID_READ) = none →
        GrainfatherClient.tryFrom t = .error .ReadCharacteristic) ∧
    (∀ (t : ClientImplModel) (cs : List Characteristic) (rc : Characteristic),
        (t.is_connected = true ∨ t.connect = .ok ()) →
        t.discover_characteristics = .ok cs →
        cs.find? (fun c => c.uuid == u128ToLeBytes CHARACTERISTIC_ID_READ) = some rc →
        cs.find? (fun c => c.uuid == u128ToLeBytes CHARACTERISTIC_ID_WRITE) = none →
        GrainfatherClient.tryFrom t = .error .WriteCharacteristic) ∧
    (∀ (t : ClientImplModel) (cs : List Characteristic) (rc wc : Characteristic),
        (t.is_connected = true ∨ t.connect = .ok ()) →
        t.discover_characteristics = .ok cs →
        cs.find? (fun c => c.uuid == u128ToLeBytes CHARACTERISTIC_ID_READ) = some rc →
        cs.find? (fun c => c.uuid == u128ToLeBytes CHARACTERISTIC_ID_WRITE) = some wc →
        GrainfatherClient.tryFrom t = .ok ⟨rc, wc⟩) := by
  refine ⟨?_, ?_, ?_, ?_, ?_, ?_⟩
  · intro t e hconn hc
    simp [GrainfatherClient.tryFrom, hconn, hc]
  · intro t c₁ c₂ hconn
    simp [GrainfatherClient.tryFrom, hconn]
  · intro t e hok hd
    rcases hok with hconn | hc
    · simp [GrainfatherClient.tryFrom, hconn, hd]
    · cases hb : t.is_connected <;> simp [GrainfatherClient.tryFrom, hb, hc, hd]
  · intro t cs hok hd hf
    rcases hok with hconn | hc
    · simp [GrainfatherClient.tryFrom, hconn, hd, hf]
    · cases hb : t.is_connected <;> simp [GrainfatherClient.tryFrom, hb, hc, hd, hf]
  · intro t cs rc hok hd hf hw
    rcases hok with hconn | hc
    · simp [GrainfatherClient.tryFrom, hconn, hd, hf, hw]
    · cases hb : t.is_connected <;> simp [GrainfatherClient.tryFrom, hb, hc, hd, hf, hw]
  · intro t cs rc wc hok hd hf hw
    rcases hok with hconn | hc
    · simp [GrainfatherClient.tryFrom, hconn, hd, hf, hw]
    · cases hb : t.is_connected <;> simp [GrainfatherClient.tryFrom, hb, hc, hd, hf, hw]

/-- Witness for `client_try_from_behavior`: a connected transport whose
discovery reports one characteristic with the read identifier and one
with the write identifier opens successfully, holding exactly those two
characteristics. -/
theorem client_try_from_behavior_witness :
    GrainfatherClient.tryFrom
        ⟨true, .ok (),
         .ok [⟨u128ToLeBytes CHARACTERISTIC_ID_READ, 1⟩,
              ⟨u128ToLeBytes CHARACTERISTIC_ID_WRITE, 2⟩]⟩ =
      .ok ⟨⟨u128ToLeBytes CHARACTERISTIC_ID_READ, 1⟩,
           ⟨u128ToLeBytes CHARACTERISTIC_ID_WRITE, 2⟩⟩ :=
  client_try_from_behavior.2.2.2.2.2
    ⟨true, .ok (),
     .ok [⟨u128ToLeBytes CHARACTERISTIC_ID_READ, 1⟩,
          ⟨u128ToLeBytes CHARACTERISTIC_ID_WRITE, 2⟩]⟩
    [⟨u128ToLeBytes CHARACTERISTIC_ID_READ, 1⟩,
     ⟨u128ToLeBytes CHARACTERISTIC_ID_WRITE, 2⟩]
    ⟨u128ToLeBytes CHARACTERISTIC_ID_READ, 1⟩
    ⟨u128ToLeBytes CHARACTERISTIC_ID_WRITE, 2⟩
    (Or.inl rfl) rfl (by decide) (by decide)
